import Mathlib

/-!
Verification of the table-processing pipeline in api/analyze.py.

The handler parses a CSV string into a table, coerces the "Sales" column to
numbers, optionally removes rows with missing cells, optionally replaces the
"Sales" column by rounded Z-scores, optionally sorts descending by "Sales"
with missing values last, computes descriptive statistics of the non-missing
"Sales" values, and finally replaces remaining missing cells by the sentinel
string "N/A" for output.

Numbers are modelled by exact rationals.  The one quantity that is not
rational in general is the standard deviation std = sqrt(sampleVar); the
normalization step therefore takes std as an explicit parameter sigma, and
theorems either hold for every sigma or assume 0 <= sigma and
sigma * sigma = sampleVar, the defining property of the real standard
deviation.  The branch test std > 0 of the source is equivalent to
2 <= count and 0 < sampleVar, because pandas std (ddof = 1) is NaN when
fewer than two non-missing values exist and NaN > 0 is false.
-/

namespace DataVis

/-- A cell of the table: a number (float in the source, exact rational here),
a piece of text, or the missing marker NaN. -/
inductive Cell where
  | num (q : ℚ)
  | str (s : String)
  | missing
deriving DecidableEq, Repr

abbrev Row := List Cell

/-- A pandas DataFrame: a header of column names and a list of rows, each row
holding one cell per column (in header order). -/
structure Table where
  cols : List String
  rows : List Row
deriving DecidableEq, Repr

/-- Reading a cell of a row at a column index; indices past the end of the
row read as missing. -/
def getCell (r : Row) (i : ℕ) : Cell := r.getD i Cell.missing

/-- The numeric content of a cell, if any. -/
def Cell.toNum : Cell → Option ℚ
  | Cell.num q => some q
  | _ => none

/-- The cells of column c, in row order; empty when the column is absent. -/
def getColCells (t : Table) (c : String) : List Cell :=
  if c ∈ t.cols then t.rows.map (fun r => getCell r (t.cols.indexOf c)) else []

/-- The non-missing numeric values of the "Sales" column, in row order
(pandas dropna on the series). -/
def salesVals (t : Table) : List ℚ :=
  (getColCells t "Sales").filterMap Cell.toNum

/-- Arithmetic mean (pandas Series.mean, skipping missing values): sum over
count.  By rational convention 0 / 0 = 0 for the empty list, a case the
pipeline never uses the mean in. -/
def listMean (l : List ℚ) : ℚ := l.sum / (l.length : ℚ)

/-- Sample variance with ddof = 1 (the square of pandas Series.std).  For
lists of length at most one the source std is NaN; the rational convention
gives 0 here, and every use first tests 2 <= length. -/
def sampleVar (l : List ℚ) : ℚ :=
  (l.map (fun v => (v - listMean l) ^ 2)).sum / ((l.length : ℚ) - 1)

/-- Rounding to 4 decimal places, as in Series.round(4).  numpy rounds halves
to even while Lean round rounds halves up; the two agree except on exact
ties at the fifth decimal, and every statement proved below only uses
that the result is within 1/20000 of the argument. -/
def round4 (q : ℚ) : ℚ := ((round (q * 10000) : ℤ) : ℚ) / 10000

/-- Splitting a character list at every occurrence of the separator, the
character-level counterpart of String.splitOn (written out structurally
so that concrete inputs evaluate inside the kernel). -/
def splitOnChar (c : Char) : List Char → List (List Char)
  | [] => [[]]
  | x :: xs =>
    match splitOnChar c xs with
    | [] => [[]]
    | g :: gs => if x = c then [] :: g :: gs else (x :: g) :: gs

/-- Removal of leading and trailing blanks, as the strip inside pandas
numeric coercion. -/
def trimChars (l : List Char) : List Char :=
  ((l.dropWhile (fun c => c = ' ')).reverse.dropWhile (fun c => c = ' ')).reverse

/-- Value of a nonempty all-digit character list. -/
def digitVal (l : List Char) : Option ℕ :=
  if l ≠ [] ∧ l.all Char.isDigit then
    some (l.foldl (fun n c => 10 * n + (c.toNat - 48)) 0)
  else none

/-- A decimal-literal parser modelling pandas numeric coercion on plain
decimal strings: optional sign, digits, optional fractional part.  (The
source accepts further float syntax, exponents for instance; no statement
below depends on those.) -/
def parseNumChars (l0 : List Char) : Option ℚ :=
  let l1 := trimChars l0
  let sgn : ℚ := if l1.headD ' ' = '-' then -1 else 1
  let l := if l1.headD ' ' = '-' then l1.tail else l1
  match splitOnChar '.' l with
  | [a] => (digitVal a).map (fun n => sgn * (n : ℚ))
  | [a, b] =>
      match digitVal a, digitVal b with
      | some x, some y => some (sgn * ((x : ℚ) + (y : ℚ) / (10 : ℚ) ^ b.length))
      | _, _ => none
  | _ => none

/-- Numeric coercion of a string cell. -/
def parseNum (s : String) : Option ℚ := parseNumChars s.data

/-- One CSV field becomes a cell: empty fields are missing (NaN), numeric
literals become numbers, anything else stays text.  (pandas infers dtypes
per column rather than per cell; the difference only affects whether a
numeric-looking cell in a mixed non-Sales column is stored as number or
text, which no downstream step distinguishes.) -/
def parseCell (f : List Char) : Cell :=
  if f = [] then Cell.missing
  else match parseNumChars f with
    | some q => Cell.num q
    | none => Cell.str (String.mk f)

/-- pd.read_csv on the raw string: first non-blank line is the header, each
further line one row, short rows padded with missing on the right. -/
def parseCSV (raw : String) : Table :=
  match (splitOnChar '\n' raw.data).filter (fun l => l ≠ []) with
  | [] => { cols := [], rows := [] }
  | header :: dataLines =>
      let cols := (splitOnChar ',' header).map String.mk
      { cols := cols
        rows := dataLines.map (fun l =>
          let cells := (splitOnChar ',' l).map parseCell
          cells.take cols.length ++
            List.replicate (cols.length - cells.length) Cell.missing) }

/-- Numeric coercion of one cell, as pd.to_numeric with errors="coerce":
numbers stay, parseable text becomes a number, everything else (including
already-missing cells) becomes missing. -/
def coerceCell : Cell → Cell
  | Cell.num q => Cell.num q
  | Cell.str s => match parseNum s with
      | some q => Cell.num q
      | none => Cell.missing
  | Cell.missing => Cell.missing

/-- Rewriting column c in place through f (df[c] = df[c].map(f)); rows
shorter than the column index are left unchanged. -/
def mapCol (t : Table) (c : String) (f : Cell → Cell) : Table :=
  if c ∈ t.cols then
    let i := t.cols.indexOf c
    { t with rows := t.rows.map (fun r => r.set i (f (getCell r i))) }
  else t

/-- Step 2 of the source: df["Sales"] = pd.to_numeric(df["Sales"],
errors="coerce"), guarded by column existence. -/
def toNumericSales (t : Table) : Table := mapCol t "Sales" coerceCell

/-- Row test for df.dropna: does the row contain a missing cell in any
column. -/
def rowHasMissing (r : Row) : Bool := r.any (fun c => c == Cell.missing)

/-- Step 3.1: df.dropna(inplace=True) when the clean flag is set. -/
def cleanStep (b : Bool) (t : Table) : Table :=
  if b then { t with rows := t.rows.filter (fun r => !rowHasMissing r) } else t

/-- df.drop(columns=[c], errors="ignore"): remove the column name and the
corresponding cell of every row. -/
def dropCol (t : Table) (c : String) : Table :=
  if c ∈ t.cols then
    let j := t.cols.indexOf c
    { cols := t.cols.eraseIdx j, rows := t.rows.map (fun r => r.eraseIdx j) }
  else t

/-- Step 3.2, the Z-score normalization of the source with the standard
deviation passed as sigma (see the header comment).  Guards follow the
source: the flag, column existence, then "not df[Sales].empty" which is a
row-count test, not a non-missing count test.  In the std > 0 branch the
temporary Sales_ZScore column holds (v - mean) / std per cell (missing
stays missing) and Sales is overwritten by its 4-decimal rounding; in the
other branch the scalar assignment df[Sales_ZScore] = 0 puts the number 0
in EVERY row, missing ones included.  The temporary column is then
dropped, which also destroys any input column of that name. -/
def normalizeStep (b : Bool) (σ : ℚ) (t : Table) : Table :=
  if b = true ∧ "Sales" ∈ t.cols then
    if t.rows = [] then t
    else
      let vals := salesVals t
      let μ := listMean vals
      let zCell : Cell → Cell :=
        if 2 ≤ vals.length ∧ 0 < sampleVar vals then
          fun c => match c with
            | Cell.num v => Cell.num (round4 ((v - μ) / σ))
            | _ => Cell.missing
        else fun _ => Cell.num 0
      dropCol (mapCol t "Sales" zCell) "Sales_ZScore"
  else t

/-- The sort key of a row: the numeric value of its Sales cell, none when
missing. -/
def saleKey (t : Table) (r : Row) : Option ℚ :=
  Cell.toNum (getCell r (t.cols.indexOf "Sales"))

/-- Insertion of a row into a list already sorted descending by key: the row
goes after every strictly greater key and before the first key less than
or equal to its own. -/
def insertDesc (f : Row → ℚ) (r : Row) : List Row → List Row
  | [] => [r]
  | x :: xs => if f r < f x then x :: insertDesc f r xs else r :: x :: xs

/-- Descending insertion sort by key.  The ORDER AMONG EQUAL KEYS chosen here
is a modelling decision, not a guarantee of the source: sort_values is
called with the default kind quicksort, and the numpy introsort behind it
permutes equal keys once a partition exceeds its small insertion-sort
threshold, so the program fixes no tie order at all.  No theorem below
depends on the tie order chosen by the model: the only sorted
concrete run proved (Scenario D) has pairwise distinct keys. -/
def sortDesc (f : Row → ℚ) : List Row → List Row
  | [] => []
  | x :: xs => insertDesc f x (sortDesc f xs)

/-- Step 3.3: df.sort_values(by="Sales", ascending=False, na_position="last").
pandas nargsort separates the rows whose key is NaN, sorts the rest
descending, and appends the NaN rows in their original order.  The
descending sort of the non-NaN block is modelled by sortDesc, whose tie
order is one admissible outcome of the unspecified default quicksort
kind (see the sortDesc comment). -/
def sortStep (b : Bool) (t : Table) : Table :=
  if b = true ∧ "Sales" ∈ t.cols then
    let sorted := sortDesc (fun r => (saleKey t r).getD 0)
      (t.rows.filter (fun r => (saleKey t r).isSome))
    let nans := t.rows.filter (fun r => (saleKey t r).isNone)
    { t with rows := sorted ++ nans }
  else t

/-- Descriptive statistics of Series.describe().  The reported std is the
square root of varS (none encodes the NaN std of a single value); all
other fields are exact rationals. -/
structure SummaryStats where
  count : ℕ
  mean : ℚ
  varS : Option ℚ
  smin : ℚ
  q25 : ℚ
  q50 : ℚ
  q75 : ℚ
  smax : ℚ
deriving DecidableEq, Repr

/-- Linear-interpolation quantile on an ascending-sorted list, the method of
Series.quantile and describe: position h = p * (n - 1), value
s[floor h] + (h - floor h) * (s[floor h + 1] - s[floor h]). -/
def quantileLin (s : List ℚ) (p : ℚ) : ℚ :=
  let h : ℚ := p * ((s.length : ℚ) - 1)
  let i : ℕ := (⌊h⌋).toNat
  let a := s.getD i 0
  a + (h - (i : ℚ)) * (s.getD (i + 1) a - a)

/-- Series.describe() on a nonempty value list. -/
def describeQ (vals : List ℚ) : SummaryStats :=
  let s := List.insertionSort (fun a b => a ≤ b) vals
  { count := vals.length
    mean := listMean vals
    varS := if 2 ≤ vals.length then some (sampleVar vals) else none
    smin := s.headD 0
    q25 := quantileLin s (1 / 4)
    q50 := quantileLin s (1 / 2)
    q75 := quantileLin s (3 / 4)
    smax := s.getLastD 0 }

/-- Step 4 of the source: stats["Sales"] = df["Sales"].dropna().describe()
when the column exists and has a non-missing value, else no entry. -/
def summarize (t : Table) : List (String × SummaryStats) :=
  if salesVals t = [] then [] else [("Sales", describeQ (salesVals t))]

/-- The output substitution df.fillna("N/A"): every remaining missing cell
becomes the sentinel string. -/
def sentinelCell : Cell → Cell
  | Cell.missing => Cell.str "N/A"
  | c => c

/-- Sentinel substitution on the whole table. -/
def serializeTable (t : Table) : Table :=
  { t with rows := t.rows.map (fun r => r.map sentinelCell) }

/-- The three boolean switches of the request body. -/
structure Config where
  clean : Bool
  norm : Bool
  sort : Bool
deriving DecidableEq, Repr

/-- The data-processing core of the handler, steps 2 to 4 of the source, in
source order: numeric coercion, optional clean, optional normalize,
optional sort, then the statistics of the resulting table. -/
def processTable (cfg : Config) (σ : ℚ) (t0 : Table) : Table × List (String × SummaryStats) :=
  let t1 := toNumericSales t0
  let t2 := cleanStep cfg.clean t1
  let t3 := normalizeStep cfg.norm σ t2
  let t4 := sortStep cfg.sort t3
  (t4, summarize t4)

/-- The JSON envelope the handler returns (POST path, after JSON decoding,
which the spec assigns to the transport wrapper). -/
structure Response where
  statusCode : ℕ
  success : Bool
  rows : List Row
  stats : List (String × SummaryStats)
deriving DecidableEq, Repr

/-- The handler on a decoded POST body: a missing or empty data field is
rejected with status 400 and success false before any processing;
otherwise the pipeline runs and the rows are serialized with the sentinel
AFTER the statistics have been taken. -/
def handler (data? : Option String) (cfg : Config) (σ : ℚ) : Response :=
  let raw := data?.getD ""
  if raw = "" then { statusCode := 400, success := false, rows := [], stats := [] }
  else
    let p := processTable cfg σ (parseCSV raw)
    { statusCode := 200, success := true
      rows := (serializeTable p.1).rows, stats := p.2 }

/-! ## Basic lemmas about the table operations -/

theorem cleanStep_cols (b : Bool) (t : Table) : (cleanStep b t).cols = t.cols := by
  cases b <;> rfl

theorem mapCol_cols (t : Table) (c : String) (f : Cell → Cell) :
    (mapCol t c f).cols = t.cols := by
  unfold mapCol; split <;> rfl

theorem rowHasMissing_eq_false (r : Row) :
    rowHasMissing r = false ↔ Cell.missing ∉ r := by
  simp [rowHasMissing, List.any_eq_true]
  constructor
  · intro h hmem; exact h Cell.missing hmem rfl
  · intro h c hc hceq; exact h (hceq ▸ hc)

/-! ## Arithmetic lemmas for the normalization step -/

theorem sum_map_div (l : List ℚ) (f : ℚ → ℚ) (c : ℚ) :
    (l.map (fun v => f v / c)).sum = (l.map f).sum / c := by
  induction l with
  | nil => simp
  | cons a l ih => simp [ih, add_div]

theorem sum_map_sub_const (l : List ℚ) (a : ℚ) :
    (l.map (fun v => v - a)).sum = l.sum - (l.length : ℚ) * a := by
  induction l with
  | nil => simp
  | cons x l ih =>
    simp only [List.map_cons, List.sum_cons, List.length_cons, ih]
    push_cast
    ring

theorem length_ne_zero_q (l : List ℚ) (hl : l ≠ []) : (l.length : ℚ) ≠ 0 := by
  have : l.length ≠ 0 := by
    intro h; exact hl (List.length_eq_zero.mp h)
  exact_mod_cast this

theorem sum_map_center (l : List ℚ) (hl : l ≠ []) :
    (l.map (fun v => v - listMean l)).sum = 0 := by
  rw [sum_map_sub_const, listMean, mul_div_cancel₀ _ (length_ne_zero_q l hl), sub_self]

theorem listMean_center_div (l : List ℚ) (σ : ℚ) (hl : l ≠ []) :
    listMean (l.map (fun v => (v - listMean l) / σ)) = 0 := by
  have h1 : (l.map (fun v => (v - listMean l) / σ)).sum = 0 := by
    rw [sum_map_div l (fun v => v - listMean l) σ, sum_map_center l hl, zero_div]
  have h2 : listMean (l.map (fun v => (v - listMean l) / σ))
      = (l.map (fun v => (v - listMean l) / σ)).sum
        / (((l.map (fun v => (v - listMean l) / σ)).length : ℚ)) := rfl
  rw [h2, h1, zero_div]

theorem sum_sq_eq_var (l : List ℚ) (h2 : 2 ≤ l.length) :
    (l.map (fun v => (v - listMean l) ^ 2)).sum = sampleVar l * ((l.length : ℚ) - 1) := by
  have hn1 : ((l.length : ℚ) - 1) ≠ 0 := by
    have : (2 : ℚ) ≤ (l.length : ℚ) := by exact_mod_cast h2
    intro h; rw [sub_eq_zero] at h; rw [h] at this; norm_num at this
  rw [sampleVar, div_mul_cancel₀ _ hn1]

theorem sampleVar_z (l : List ℚ) (σ : ℚ) (h2 : 2 ≤ l.length)
    (hσ : σ * σ = sampleVar l) (hv : sampleVar l ≠ 0) :
    sampleVar (l.map (fun v => (v - listMean l) / σ)) = 1 := by
  have hl : l ≠ [] := by
    intro h; subst h; simp at h2
  have hn1 : ((l.length : ℚ) - 1) ≠ 0 := by
    have : (2 : ℚ) ≤ (l.length : ℚ) := by exact_mod_cast h2
    intro h; rw [sub_eq_zero] at h; rw [h] at this; norm_num at this
  rw [sampleVar, listMean_center_div l σ hl, List.length_map]
  simp only [sub_zero, List.map_map, Function.comp_def]
  have hpt : (fun v => ((v - listMean l) / σ) ^ 2)
      = fun v => ((v - listMean l) ^ 2) / (σ * σ) := by
    funext v
    rw [div_pow, sq, sq]
  rw [hpt, sum_map_div l (fun v => (v - listMean l) ^ 2) (σ * σ),
    sum_sq_eq_var l h2, hσ]
  field_simp

theorem abs_round4_sub (x : ℚ) : |round4 x - x| ≤ 1 / 20000 := by
  have h := abs_sub_round (x * 10000)
  rw [abs_sub_comm] at h
  have h10 : (0 : ℚ) < 10000 := by norm_num
  have heq : round4 x - x = ((round (x * 10000) : ℤ) - x * 10000) / 10000 := by
    rw [round4]; ring
  rw [heq, abs_div, abs_of_pos h10]
  rw [div_le_iff₀ h10]
  calc |(round (x * 10000) : ℚ) - x * 10000| ≤ 1 / 2 := h
    _ = 1 / 20000 * 10000 := by norm_num

theorem abs_sum_round4 (l : List ℚ) :
    |(l.map round4).sum - l.sum| ≤ (l.length : ℚ) / 20000 := by
  induction l with
  | nil => simp
  | cons x l ih =>
    simp only [List.map_cons, List.sum_cons, List.length_cons]
    have heq : round4 x + (l.map round4).sum - (x + l.sum)
        = (round4 x - x) + ((l.map round4).sum - l.sum) := by ring
    rw [heq]
    calc |(round4 x - x) + ((l.map round4).sum - l.sum)|
        ≤ |round4 x - x| + |(l.map round4).sum - l.sum| := abs_add _ _
      _ ≤ 1 / 20000 + (l.length : ℚ) / 20000 := add_le_add (abs_round4_sub x) ih
      _ = ((l.length : ℚ) + 1) / 20000 := by ring
      _ = ((l.length + 1 : ℕ) : ℚ) / 20000 := by push_cast; ring

/-! ## Lemmas about cells and column rewriting -/

theorem getCell_set_self (r : Row) (i : ℕ) (x : Cell) :
    getCell (r.set i x) i = if i < r.length then x else Cell.missing := by
  by_cases h : i < r.length
  · rw [if_pos h]
    rw [getCell, List.getD_eq_getElem?_getD, List.getElem?_set_self (by simpa using h)]
    rfl
  · rw [if_neg h]
    rw [getCell, List.getD_eq_getElem?_getD,
      List.getElem?_eq_none (by simpa using le_of_not_lt h)]
    rfl

theorem getCell_eq_missing_of_le (r : Row) (i : ℕ) (h : r.length ≤ i) :
    getCell r i = Cell.missing := by
  rw [getCell, List.getD_eq_getElem?_getD, List.getElem?_eq_none h]
  rfl

theorem toNum_getCell_set (r : Row) (i : ℕ) (g : Cell → Cell) (f : ℚ → ℚ)
    (hg : ∀ c, Cell.toNum (g c) = (Cell.toNum c).map f) :
    Cell.toNum (getCell (r.set i (g (getCell r i))) i)
      = (Cell.toNum (getCell r i)).map f := by
  rw [getCell_set_self]
  by_cases h : i < r.length
  · rw [if_pos h]; exact hg _
  · rw [if_neg h, getCell_eq_missing_of_le r i (le_of_not_lt h)]
    rfl

theorem getColCells_mapCol_self (t : Table) (c : String) (g : Cell → Cell)
    (hc : c ∈ t.cols) :
    getColCells (mapCol t c g) c
      = t.rows.map (fun r =>
          if t.cols.indexOf c < r.length then g (getCell r (t.cols.indexOf c))
          else Cell.missing) := by
  simp only [getColCells, mapCol, hc, if_true, List.map_map]
  refine List.map_congr_left ?_
  intro r _
  simp only [Function.comp_apply]
  exact getCell_set_self r (t.cols.indexOf c) (g (getCell r (t.cols.indexOf c)))

theorem salesVals_mapCol (t : Table) (g : Cell → Cell) (f : ℚ → ℚ)
    (hS : "Sales" ∈ t.cols)
    (hg : ∀ c, Cell.toNum (g c) = (Cell.toNum c).map f) :
    salesVals (mapCol t "Sales" g) = (salesVals t).map f := by
  rw [salesVals, salesVals, getColCells_mapCol_self t "Sales" g hS, getColCells,
    if_pos hS, List.filterMap_map, List.filterMap_map, List.map_filterMap]
  congr 1
  funext r
  simp only [Function.comp_apply]
  by_cases h : t.cols.indexOf "Sales" < r.length
  · rw [if_pos h]
    exact hg _
  · rw [if_neg h, getCell_eq_missing_of_le r _ (le_of_not_lt h)]
    rfl

/-! ## Shape lemmas for the normalization step -/

theorem dropCol_not_mem (t : Table) (c : String) (hc : c ∉ t.cols) :
    dropCol t c = t := by
  rw [dropCol, if_neg hc]

theorem normalizeStep_no_col (b : Bool) (σ : ℚ) (t : Table)
    (h : "Sales" ∉ t.cols) : normalizeStep b σ t = t := by
  simp only [normalizeStep]
  rw [if_neg]
  rintro ⟨_, hmem⟩
  exact h hmem

theorem normalizeStep_empty_rows (b : Bool) (σ : ℚ) (t : Table)
    (h : t.rows = []) : normalizeStep b σ t = t := by
  by_cases hb : b = true ∧ "Sales" ∈ t.cols
  · simp only [normalizeStep]
    rw [if_pos hb, if_pos h]
  · simp only [normalizeStep]
    rw [if_neg hb]

theorem normalizeStep_pos (t : Table) (σ : ℚ) (hS : "Sales" ∈ t.cols)
    (hZ : "Sales_ZScore" ∉ t.cols) (hne : t.rows ≠ [])
    (h2 : 2 ≤ (salesVals t).length) (hv : 0 < sampleVar (salesVals t)) :
    normalizeStep true σ t
      = mapCol t "Sales" (fun c => match c with
          | Cell.num v => Cell.num (round4 ((v - listMean (salesVals t)) / σ))
          | _ => Cell.missing) := by
  simp only [normalizeStep]
  rw [if_pos ⟨trivial, hS⟩, if_neg hne, if_pos ⟨h2, hv⟩]
  exact dropCol_not_mem _ _ (by rw [mapCol_cols]; exact hZ)

theorem normalizeStep_zero (t : Table) (σ : ℚ) (hS : "Sales" ∈ t.cols)
    (hZ : "Sales_ZScore" ∉ t.cols) (hne : t.rows ≠ [])
    (hnot : ¬(2 ≤ (salesVals t).length ∧ 0 < sampleVar (salesVals t))) :
    normalizeStep true σ t = mapCol t "Sales" (fun _ => Cell.num 0) := by
  simp only [normalizeStep]
  rw [if_pos ⟨trivial, hS⟩, if_neg hne, if_neg hnot]
  exact dropCol_not_mem _ _ (by rw [mapCol_cols]; exact hZ)

theorem salesVals_mapCol_const_zero (t : Table) (hS : "Sales" ∈ t.cols) :
    ∀ v ∈ salesVals (mapCol t "Sales" (fun _ => Cell.num 0)), v = 0 := by
  intro v hv
  rw [salesVals, getColCells_mapCol_self t "Sales" _ hS] at hv
  rcases List.mem_filterMap.mp hv with ⟨c, hc, hcv⟩
  rcases List.mem_map.mp hc with ⟨r, _, hceq⟩
  rw [← hceq] at hcv
  by_cases h : t.cols.indexOf "Sales" < r.length
  · rw [if_pos h] at hcv
    simp [Cell.toNum] at hcv
    exact hcv.symm
  · rw [if_neg h] at hcv
    simp [Cell.toNum] at hcv

theorem getCell_set_ne (r : Row) (i j : ℕ) (x : Cell) (h : i ≠ j) :
    getCell (r.set i x) j = getCell r j := by
  rw [getCell, getCell, List.getD_eq_getElem?_getD, List.getD_eq_getElem?_getD,
    List.getElem?_set_ne h]

theorem getColCells_mapCol_other (t : Table) (c c2 : String) (g : Cell → Cell)
    (hc2 : c2 ∈ t.cols) (hne : c2 ≠ c) :
    getColCells (mapCol t c g) c2 = getColCells t c2 := by
  by_cases hc : c ∈ t.cols
  · have hij : t.cols.indexOf c ≠ t.cols.indexOf c2 := by
      intro heq
      exact hne (((List.indexOf_inj hc hc2).mp heq).symm)
    rw [getColCells, getColCells, mapCol_cols, if_pos hc2, if_pos hc2, mapCol, if_pos hc]
    rw [List.map_map]
    refine List.map_congr_left ?_
    intro r _
    simp only [Function.comp_apply]
    exact getCell_set_ne r _ _ _ hij
  · rw [mapCol, if_neg hc]

/-! ## Claim theorems -/

/-- C1: when the Sales column exists with at least two non-missing values and
positive sample variance, with sigma the (real) standard deviation given
by its defining property, the normalize step replaces the non-missing
values by the 4-decimal rounding of the Z-scores, whose exact mean is 0
and exact sample variance 1 (so the standard deviation is 1); the rounded
output mean is 0 within the rounding tolerance 1/20000.  When the sample
variance is 0 (all values identical, or a single value, in which case the
source std is NaN and the positive test fails) every non-missing output
value is 0. -/
theorem C1_normalize_standardizes (t : Table) (σ : ℚ) (hS : "Sales" ∈ t.cols)
    (hZ : "Sales_ZScore" ∉ t.cols) (hne : t.rows ≠ []) :
    (2 ≤ (salesVals t).length → 0 < sampleVar (salesVals t) → 0 ≤ σ →
      σ * σ = sampleVar (salesVals t) →
        salesVals (normalizeStep true σ t)
            = ((salesVals t).map (fun v => (v - listMean (salesVals t)) / σ)).map round4
        ∧ listMean ((salesVals t).map (fun v => (v - listMean (salesVals t)) / σ)) = 0
        ∧ sampleVar ((salesVals t).map (fun v => (v - listMean (salesVals t)) / σ)) = 1
        ∧ |listMean (salesVals (normalizeStep true σ t))| ≤ 1 / 20000)
    ∧ (sampleVar (salesVals t) = 0 →
        ∀ v ∈ salesVals (normalizeStep true σ t), v = 0) := by
  constructor
  · intro h2 hv hσ0 hσ
    have hlne : salesVals t ≠ [] := by
      intro h; rw [h] at h2; simp at h2
    have hmap : salesVals (normalizeStep true σ t)
        = (salesVals t).map (fun v => round4 ((v - listMean (salesVals t)) / σ)) := by
      rw [normalizeStep_pos t σ hS hZ hne h2 hv]
      refine salesVals_mapCol t _ (fun v => round4 ((v - listMean (salesVals t)) / σ)) hS ?_
      intro c
      cases c <;> rfl
    have hmap2 : (salesVals t).map (fun v => round4 ((v - listMean (salesVals t)) / σ))
        = ((salesVals t).map (fun v => (v - listMean (salesVals t)) / σ)).map round4 := by
      rw [List.map_map]
      rfl
    refine ⟨hmap.trans hmap2, listMean_center_div _ σ hlne,
      sampleVar_z _ σ h2 hσ (ne_of_gt hv), ?_⟩
    set w := (salesVals t).map (fun v => (v - listMean (salesVals t)) / σ) with hw
    have hwlen : w.length = (salesVals t).length := List.length_map _ _
    have hposn : (0 : ℚ) < (w.length : ℚ) := by
      rw [hwlen]
      have : 0 < (salesVals t).length := lt_of_lt_of_le (by norm_num) h2
      exact_mod_cast this
    have hsum : w.sum = 0 := by
      have h0 : w.sum / ((w.length : ℚ)) = 0 := listMean_center_div (salesVals t) σ hlne
      rcases div_eq_zero_iff.mp h0 with h | h
      · exact h
      · exact absurd h (ne_of_gt hposn)
    rw [hmap.trans hmap2]
    have hmean : listMean (w.map round4) = (w.map round4).sum / ((w.length : ℚ)) := by
      rw [listMean, List.length_map]
    rw [hmean, abs_div, abs_of_pos hposn, div_le_iff₀ hposn]
    have hb := abs_sum_round4 w
    rw [hsum, sub_zero] at hb
    calc |(w.map round4).sum| ≤ (w.length : ℚ) / 20000 := hb
      _ = 1 / 20000 * (w.length : ℚ) := by ring
  · intro hv0 v hvmem
    have hnot : ¬(2 ≤ (salesVals t).length ∧ 0 < sampleVar (salesVals t)) := by
      rintro ⟨_, hpos⟩
      rw [hv0] at hpos
      exact lt_irrefl 0 hpos
    rw [normalizeStep_zero t σ hS hZ hne hnot] at hvmem
    exact salesVals_mapCol_const_zero t hS v hvmem

/-- C1 witness: the table with Sales 1, 2, 3 (variance 1, std 1) for the
positive branch, and the Scenario C table with Sales 5, 5, 5 for the
zero-variance branch. -/
theorem C1_witness :
    |listMean (salesVals (normalizeStep true 1
        ⟨["Sales"], [[Cell.num 1], [Cell.num 2], [Cell.num 3]]⟩))| ≤ 1 / 20000
    ∧ ∀ v ∈ salesVals (normalizeStep true 0
        ⟨["Sales"], [[Cell.num 5], [Cell.num 5], [Cell.num 5]]⟩), v = 0 :=
  ⟨((C1_normalize_standardizes ⟨["Sales"], [[Cell.num 1], [Cell.num 2], [Cell.num 3]]⟩ 1
      (by decide) (by decide) (by decide)).1
      (by decide) (by with_unfolding_all decide) (by norm_num)
      (by with_unfolding_all decide)).2.2.2,
   (C1_normalize_standardizes ⟨["Sales"], [[Cell.num 5], [Cell.num 5], [Cell.num 5]]⟩ 0
      (by decide) (by decide) (by decide)).2
      (by with_unfolding_all decide)⟩

/-- C4 counterexample: the one-row table whose only Sales cell fails numeric
coercion.  The claim says the normalize step is a no-op there and that a
missing cell stays missing; the code instead takes the scalar branch
(mean and std of the all-missing series are NaN, the positive test
fails) and writes the number 0 over the missing cell. -/
theorem C4_counterexample :
    toNumericSales (parseCSV "Sales\nabc")
        = ⟨["Sales"], [[Cell.missing]]⟩
    ∧ (processTable ⟨false, true, false⟩ 0 (parseCSV "Sales\nabc")).1.rows
        = [[Cell.num 0]]
    ∧ [[Cell.num 0]] ≠ ([[Cell.missing]] : List Row) :=
  ⟨by with_unfolding_all rfl, by with_unfolding_all rfl, by decide⟩

/-- C4 amended: the normalize step is a no-op only when the table has no rows
at all; missing Sales cells are preserved in the positive-variance branch;
but whenever rows exist and the positive test fails (zero non-missing
values included) EVERY Sales cell of an aligned table, missing ones
included, becomes the number 0. -/
theorem C4_amended_normalize_missing (t : Table) (σ : ℚ) (hS : "Sales" ∈ t.cols)
    (hZ : "Sales_ZScore" ∉ t.cols) :
    (t.rows = [] → normalizeStep true σ t = t)
    ∧ (t.rows ≠ [] → 2 ≤ (salesVals t).length → 0 < sampleVar (salesVals t) →
        ∀ i : ℕ, (getColCells t "Sales").getD i Cell.missing = Cell.missing →
          (getColCells (normalizeStep true σ t) "Sales").getD i Cell.missing
            = Cell.missing)
    ∧ (t.rows ≠ [] → ¬(2 ≤ (salesVals t).length ∧ 0 < sampleVar (salesVals t)) →
        (∀ r ∈ t.rows, r.length = t.cols.length) →
        ∀ c ∈ getColCells (normalizeStep true σ t) "Sales", c = Cell.num 0) := by
  refine ⟨fun h => normalizeStep_empty_rows true σ t h, ?_, ?_⟩
  · intro hne h2 hv i hi
    rw [normalizeStep_pos t σ hS hZ hne h2 hv,
      getColCells_mapCol_self t "Sales" _ hS]
    rw [getColCells, if_pos hS] at hi
    rw [List.getD_eq_getElem?_getD, List.getElem?_map] at hi ⊢
    cases hx : t.rows[i]? with
    | none => rfl
    | some r =>
      rw [hx] at hi
      simp only [Option.map_some, Option.map_some', Option.getD_some] at hi
      simp only [Option.map_some, Option.map_some', Option.getD_some]
      by_cases h : t.cols.indexOf "Sales" < r.length
      · rw [if_pos h, hi]
      · rw [if_neg h]
  · intro hne hnot halign c hc
    rw [normalizeStep_zero t σ hS hZ hne hnot,
      getColCells_mapCol_self t "Sales" _ hS] at hc
    rcases List.mem_map.mp hc with ⟨r, hr, hceq⟩
    have hlt : t.cols.indexOf "Sales" < r.length := by
      rw [halign r hr]
      exact List.indexOf_lt_length.mpr hS
    rw [if_pos hlt] at hceq
    exact hceq.symm

/-- C4 witness: missing cells are preserved by the positive-variance branch on
a concrete table with values 1 and 2 around a missing cell. -/
theorem C4_witness :
    (getColCells (normalizeStep true 1
        ⟨["Sales"], [[Cell.num 1], [Cell.missing], [Cell.num 2]]⟩) "Sales").getD 1
        Cell.missing = Cell.missing :=
  (C4_amended_normalize_missing
    ⟨["Sales"], [[Cell.num 1], [Cell.missing], [Cell.num 2]]⟩ 1
    (by decide) (by decide)).2.1 (by decide) (by decide)
    (by with_unfolding_all decide) 1 (by decide)

/-- C9 counterexample: on a table that already has a column named
Sales_ZScore, the normalize step destroys that column (it is overwritten
by the temporary Z-score column and then dropped), so the output column
set differs from the input column set. -/
theorem C9_counterexample :
    (normalizeStep true 0
        ⟨["Sales", "Sales_ZScore"], [[Cell.num 5, Cell.num 7]]⟩).cols = ["Sales"]
    ∧ ["Sales"] ≠ ["Sales", "Sales_ZScore"] :=
  ⟨by with_unfolding_all rfl, by decide⟩

/-- C9 amended: provided the input has no column named Sales_ZScore (the name
of the temporary column), the normalize step changes only the Sales
column: the column list is unchanged and the cells of every other column
are unchanged; if the input does have such a column, normalization drops
it (see the counterexample). -/
theorem C9_amended_normalize_frame (t : Table) (σ : ℚ)
    (hZ : "Sales_ZScore" ∉ t.cols) :
    (normalizeStep true σ t).cols = t.cols
    ∧ ∀ c, c ∈ t.cols → c ≠ "Sales" →
        getColCells (normalizeStep true σ t) c = getColCells t c := by
  by_cases hS : "Sales" ∈ t.cols
  · by_cases hne : t.rows = []
    · rw [normalizeStep_empty_rows true σ t hne]
      exact ⟨rfl, fun c _ _ => rfl⟩
    · have hmap : ∃ Z, normalizeStep true σ t = mapCol t "Sales" Z := by
        by_cases hbr : 2 ≤ (salesVals t).length ∧ 0 < sampleVar (salesVals t)
        · exact ⟨_, normalizeStep_pos t σ hS hZ hne hbr.1 hbr.2⟩
        · exact ⟨_, normalizeStep_zero t σ hS hZ hne hbr⟩
      rcases hmap with ⟨Z, hZeq⟩
      rw [hZeq]
      exact ⟨mapCol_cols t "Sales" Z,
        fun c hc hcne => getColCells_mapCol_other t "Sales" c Z hc hcne⟩
  · rw [normalizeStep_no_col true σ t hS]
    exact ⟨rfl, fun c _ _ => rfl⟩

/-- C9 witness: a concrete two-column table whose Region column is untouched
by normalization. -/
theorem C9_witness :
    getColCells (normalizeStep true 1
        ⟨["Sales", "Region"], [[Cell.num 1, Cell.str "x"], [Cell.num 2, Cell.str "y"]]⟩)
        "Region"
      = getColCells
        ⟨["Sales", "Region"], [[Cell.num 1, Cell.str "x"], [Cell.num 2, Cell.str "y"]]⟩
        "Region" :=
  (C9_amended_normalize_frame
    ⟨["Sales", "Region"], [[Cell.num 1, Cell.str "x"], [Cell.num 2, Cell.str "y"]]⟩ 1
    (by decide)).2 "Region" (by decide) (by decide)

/-- C5: with the clean flag set, the clean step removes exactly the rows that
contain at least one missing value in any column, and the surviving rows
keep their relative input order (they form a sublist of the input rows);
the column set is untouched. -/
theorem C5_clean_removes_exactly_missing_rows (t : Table) :
    (cleanStep true t).cols = t.cols
    ∧ (cleanStep true t).rows.Sublist t.rows
    ∧ ∀ r : Row, r ∈ (cleanStep true t).rows ↔ r ∈ t.rows ∧ Cell.missing ∉ r := by
  refine ⟨rfl, ?_, ?_⟩
  · simp [cleanStep]
  · intro r
    rw [show (cleanStep true t).rows = t.rows.filter (fun r => !rowHasMissing r) from rfl,
      List.mem_filter]
    simp [rowHasMissing_eq_false]

/-- C5 witness: a concrete two-row table in which exactly the row with the
missing cell is removed. -/
theorem C5_witness :
    [Cell.num 10] ∈ (cleanStep true ⟨["Sales"], [[Cell.num 10], [Cell.missing]]⟩).rows
    ∧ ¬ [Cell.missing] ∈ (cleanStep true ⟨["Sales"], [[Cell.num 10], [Cell.missing]]⟩).rows := by
  constructor
  · exact ((C5_clean_removes_exactly_missing_rows
      ⟨["Sales"], [[Cell.num 10], [Cell.missing]]⟩).2.2 [Cell.num 10]).mpr
      (by constructor <;> simp)
  · intro hmem
    have h := ((C5_clean_removes_exactly_missing_rows
      ⟨["Sales"], [[Cell.num 10], [Cell.missing]]⟩).2.2 [Cell.missing]).mp hmem
    exact h.2 (by simp)

/-- C6: a missing or empty data field is rejected before any processing with
status code 400 and success false, a failure distinct from the generic
500 server error, and never a success with empty output. -/
theorem C6_empty_data_rejected (data? : Option String) (cfg : Config) (σ : ℚ)
    (h : data? = none ∨ data? = some "") :
    (handler data? cfg σ).statusCode = 400
    ∧ (handler data? cfg σ).success = false
    ∧ (handler data? cfg σ).statusCode ≠ 500 := by
  rcases h with h | h <;> subst h <;> simp [handler]

/-- C6 witness: the concrete request with a missing data field, with all
flags on. -/
theorem C6_witness :
    (handler none ⟨true, true, true⟩ 0).statusCode = 400
    ∧ (handler none ⟨true, true, true⟩ 0).success = false
    ∧ (handler none ⟨true, true, true⟩ 0).statusCode ≠ 500 :=
  C6_empty_data_rejected none ⟨true, true, true⟩ 0 (Or.inl rfl)

/-! ## Lemmas about the descriptive statistics -/

theorem getLastD_mem (l : List ℚ) (d : ℚ) (h : l ≠ []) : l.getLastD d ∈ l := by
  induction l generalizing d with
  | nil => exact absurd rfl h
  | cons a l ih =>
    rw [List.getLastD_cons]
    cases hl : l with
    | nil => subst hl; simp [List.getLastD]
    | cons b l2 =>
      subst hl
      exact List.mem_cons_of_mem a (ih a (by simp))

theorem sorted_headD_le (l : List ℚ) (h : l.Sorted (fun a b => a ≤ b)) (x : ℚ)
    (hx : x ∈ l) : l.headD 0 ≤ x := by
  cases l with
  | nil => cases hx
  | cons a l =>
    rw [List.headD_cons]
    rcases List.mem_cons.mp hx with rfl | hx2
    · exact le_refl x
    · exact (List.pairwise_cons.mp h).1 x hx2

theorem sorted_le_getLastD : ∀ (l : List ℚ) (d : ℚ),
    l.Sorted (fun a b => a ≤ b) → ∀ x ∈ l, x ≤ l.getLastD d := by
  intro l
  induction l with
  | nil =>
    intro d _ x hx
    cases hx
  | cons a l ih =>
    intro d h x hx
    rw [List.getLastD_cons]
    cases hl : l with
    | nil =>
      subst hl
      rcases List.mem_cons.mp hx with rfl | h2
      · simp [List.getLastD]
      · cases h2
    | cons b l2 =>
      subst hl
      rcases List.mem_cons.mp hx with rfl | hx2
      · have hmem := getLastD_mem (b :: l2) x (by simp)
        exact (List.pairwise_cons.mp h).1 _ hmem
      · exact ih a (List.pairwise_cons.mp h).2 x hx2

theorem quantileLin_between (s : List ℚ) (p : ℚ)
    (hs : s.Sorted (fun a b => a ≤ b)) (hne : s ≠ [])
    (hp0 : 0 ≤ p) (hp1 : p ≤ 1) :
    s.headD 0 ≤ quantileLin s p ∧ quantileLin s p ≤ s.getLastD 0 := by
  have hn : 0 < s.length := List.length_pos.mpr hne
  have hn1 : (0 : ℚ) ≤ (s.length : ℚ) - 1 := by
    have : (1 : ℚ) ≤ (s.length : ℚ) := by exact_mod_cast hn
    linarith
  simp only [quantileLin]
  set h : ℚ := p * ((s.length : ℚ) - 1) with hh
  set i : ℕ := (⌊h⌋).toNat with hi
  have hh0 : 0 ≤ h := mul_nonneg hp0 hn1
  have hh1 : h ≤ (s.length : ℚ) - 1 := by
    rw [hh]
    nlinarith
  have hiz : ((i : ℕ) : ℚ) = ((⌊h⌋ : ℤ) : ℚ) := by
    rw [hi]
    norm_cast
    exact Int.toNat_of_nonneg (Int.floor_nonneg.mpr hh0)
  have hi_le : (i : ℚ) ≤ h := by rw [hiz]; exact Int.floor_le h
  have hlt1 : h < (i : ℚ) + 1 := by
    rw [hiz]
    exact_mod_cast Int.lt_floor_add_one h
  have hi_lt_n : i < s.length := by
    have h1 : (i : ℚ) < (s.length : ℚ) := by linarith
    exact_mod_cast h1
  have ha_eq : s.getD i 0 = s[i] := by
    rw [List.getD_eq_getElem?_getD, List.getElem?_eq_getElem hi_lt_n]
    rfl
  have ha_mem : s.getD i 0 ∈ s := by
    rw [ha_eq]
    exact List.getElem_mem _
  have hhead : s.headD 0 ≤ s.getD i 0 := sorted_headD_le s hs _ ha_mem
  by_cases hib : i + 1 < s.length
  · have hb_eq : s.getD (i + 1) (s.getD i 0) = s[i + 1] := by
      rw [List.getD_eq_getElem?_getD, List.getElem?_eq_getElem hib]
      rfl
    have hab : s.getD i 0 ≤ s.getD (i + 1) (s.getD i 0) := by
      rw [hb_eq, ha_eq]
      exact List.pairwise_iff_getElem.mp hs i (i + 1) hi_lt_n hib (by omega)
    have hb_mem : s.getD (i + 1) (s.getD i 0) ∈ s := by
      rw [hb_eq]
      exact List.getElem_mem _
    have hlast : s.getD (i + 1) (s.getD i 0) ≤ s.getLastD 0 :=
      sorted_le_getLastD s 0 hs _ hb_mem
    constructor
    · nlinarith [hi_le, hab]
    · nlinarith [hi_le, hlt1, hab, hlast]
  · have hb_eq : s.getD (i + 1) (s.getD i 0) = s.getD i 0 := by
      rw [List.getD_eq_getElem?_getD, List.getElem?_eq_none (not_lt.mp hib)]
      rfl
    constructor
    · rw [hb_eq]
      simp only [sub_self, mul_zero, add_zero]
      exact hhead
    · rw [hb_eq]
      simp only [sub_self, mul_zero, add_zero]
      exact sorted_le_getLastD s 0 hs _ ha_mem

theorem describeQ_spec (vals : List ℚ) (hne : vals ≠ []) :
    (describeQ vals).count = vals.length
    ∧ (describeQ vals).mean = listMean vals
    ∧ (describeQ vals).varS
        = (if 2 ≤ vals.length then some (sampleVar vals) else none)
    ∧ (describeQ vals).smin ∈ vals
    ∧ (∀ x ∈ vals, (describeQ vals).smin ≤ x)
    ∧ (describeQ vals).smax ∈ vals
    ∧ (∀ x ∈ vals, x ≤ (describeQ vals).smax)
    ∧ ((describeQ vals).smin ≤ (describeQ vals).q25
        ∧ (describeQ vals).q25 ≤ (describeQ vals).smax)
    ∧ ((describeQ vals).smin ≤ (describeQ vals).q50
        ∧ (describeQ vals).q50 ≤ (describeQ vals).smax)
    ∧ ((describeQ vals).smin ≤ (describeQ vals).q75
        ∧ (describeQ vals).q75 ≤ (describeQ vals).smax) := by
  have hperm : (List.insertionSort (fun a b => a ≤ b) vals).Perm vals :=
    List.perm_insertionSort _ vals
  have hsorted : (List.insertionSort (fun a b => a ≤ b) vals).Sorted (fun a b => a ≤ b) :=
    List.sorted_insertionSort _ vals
  have hsne : List.insertionSort (fun a b => a ≤ b) vals ≠ [] := by
    intro h
    rw [h] at hperm
    exact hne hperm.symm.eq_nil
  have hminmem : (describeQ vals).smin ∈ vals := by
    have h1 : (describeQ vals).smin
        = (List.insertionSort (fun a b => a ≤ b) vals).headD 0 := rfl
    rw [h1]
    refine hperm.mem_iff.mp ?_
    cases hc : List.insertionSort (fun a b => a ≤ b) vals with
    | nil => exact absurd hc hsne
    | cons a l => simp
  have hmaxmem : (describeQ vals).smax ∈ vals := by
    have h1 : (describeQ vals).smax
        = (List.insertionSort (fun a b => a ≤ b) vals).getLastD 0 := rfl
    rw [h1]
    exact hperm.mem_iff.mp (getLastD_mem _ 0 hsne)
  have hq25 := quantileLin_between (List.insertionSort (fun a b => a ≤ b) vals)
    (1 / 4) hsorted hsne (by norm_num) (by norm_num)
  have hq50 := quantileLin_between (List.insertionSort (fun a b => a ≤ b) vals)
    (1 / 2) hsorted hsne (by norm_num) (by norm_num)
  have hq75 := quantileLin_between (List.insertionSort (fun a b => a ≤ b) vals)
    (3 / 4) hsorted hsne (by norm_num) (by norm_num)
  refine ⟨rfl, rfl, rfl, hminmem, ?_, hmaxmem, ?_, hq25, hq50, hq75⟩
  · intro x hx
    exact sorted_headD_le _ hsorted x (hperm.mem_iff.mpr hx)
  · intro x hx
    exact sorted_le_getLastD _ 0 hsorted x (hperm.mem_iff.mpr hx)

/-! ## Serialization and summary lemmas -/

theorem salesVals_no_col (t : Table) (h : "Sales" ∉ t.cols) : salesVals t = [] := by
  rw [salesVals, getColCells, if_neg h]
  rfl

theorem toNum_getCell_map_sentinel (r : Row) (i : ℕ) :
    Cell.toNum (getCell (r.map sentinelCell) i) = Cell.toNum (getCell r i) := by
  by_cases h : i < r.length
  · rw [getCell, getCell, List.getD_eq_getElem?_getD, List.getD_eq_getElem?_getD,
      List.getElem?_map]
    cases hx : r[i]? with
    | none => rfl
    | some c => cases c <;> rfl
  · rw [getCell_eq_missing_of_le _ _ (by rw [List.length_map]; exact le_of_not_lt h),
      getCell_eq_missing_of_le r _ (le_of_not_lt h)]

theorem salesVals_serialize (t : Table) :
    salesVals (serializeTable t) = salesVals t := by
  by_cases hS : "Sales" ∈ t.cols
  · simp only [salesVals, getColCells, serializeTable, hS, if_true]
    rw [List.map_map, List.filterMap_map, List.filterMap_map]
    congr 1
    funext r
    simp only [Function.comp_apply]
    exact toNum_getCell_map_sentinel r _
  · simp only [salesVals, getColCells, serializeTable, hS, if_false]

theorem summarize_serialize (t : Table) :
    summarize (serializeTable t) = summarize t := by
  rw [summarize, summarize, salesVals_serialize]

/-- C7: the statistics of a run are exactly one describe entry for the Sales
column computed from the post-pipeline non-missing values when at least
one remains, and empty otherwise; and for every nonempty value list the
describe entry holds the count, the mean, the variance under the std
(none encoding the NaN std of a single value), the true minimum and
maximum, and the three linear-interpolation quartiles, each lying between
minimum and maximum. -/
theorem C7_summary_statistics (cfg : Config) (σ : ℚ) (t0 : Table) :
    (salesVals (processTable cfg σ t0).1 = [] → (processTable cfg σ t0).2 = [])
    ∧ (salesVals (processTable cfg σ t0).1 ≠ [] →
        (processTable cfg σ t0).2
          = [("Sales", describeQ (salesVals (processTable cfg σ t0).1))])
    ∧ ∀ vals : List ℚ, vals ≠ [] →
        (describeQ vals).count = vals.length
        ∧ (describeQ vals).mean = listMean vals
        ∧ (describeQ vals).varS
            = (if 2 ≤ vals.length then some (sampleVar vals) else none)
        ∧ (describeQ vals).smin ∈ vals
        ∧ (∀ x ∈ vals, (describeQ vals).smin ≤ x)
        ∧ (describeQ vals).smax ∈ vals
        ∧ (∀ x ∈ vals, x ≤ (describeQ vals).smax)
        ∧ ((describeQ vals).smin ≤ (describeQ vals).q25
            ∧ (describeQ vals).q25 ≤ (describeQ vals).smax)
        ∧ ((describeQ vals).smin ≤ (describeQ vals).q50
            ∧ (describeQ vals).q50 ≤ (describeQ vals).smax)
        ∧ ((describeQ vals).smin ≤ (describeQ vals).q75
            ∧ (describeQ vals).q75 ≤ (describeQ vals).smax) := by
  have hsnd : (processTable cfg σ t0).2 = summarize (processTable cfg σ t0).1 := rfl
  refine ⟨?_, ?_, fun vals h => describeQ_spec vals h⟩
  · intro h
    rw [hsnd, summarize, if_pos h]
  · intro h
    rw [hsnd, summarize, if_neg h]

/-- C7 witness: the Scenario A table gives a single describe entry for Sales. -/
theorem C7_witness :
    (processTable ⟨false, false, false⟩ 0 (parseCSV "Sales\n10\n20\n30")).2
      = [("Sales", describeQ (salesVals
          (processTable ⟨false, false, false⟩ 0 (parseCSV "Sales\n10\n20\n30")).1))] :=
  (C7_summary_statistics ⟨false, false, false⟩ 0 (parseCSV "Sales\n10\n20\n30")).2.1
    (by with_unfolding_all decide)

/-- C2 counterexample: on the Scenario D input the pipeline produces the
Sales values 1, 0, -1 (pandas std has ddof 1, so sigma is 1 here, as the
second conjunct certifies against the table the normalize step sees), and
the first produced value is not within any reasonable tolerance of the
1.2247 the claim predicts (the spec computed with the population std). -/
theorem C2_counterexample :
    salesVals ((processTable ⟨false, true, true⟩ 1 (parseCSV "Sales\n1\n2\n3")).1)
        = [1, 0, -1]
    ∧ (0 : ℚ) ≤ 1
      ∧ (1 : ℚ) * 1 = sampleVar (salesVals
          (cleanStep false (toNumericSales (parseCSV "Sales\n1\n2\n3"))))
    ∧ ¬ |(1 : ℚ) - 12247 / 10000| ≤ 1 / 100 :=
  ⟨by with_unfolding_all rfl, by norm_num,
   by with_unfolding_all decide, by with_unfolding_all decide⟩

/-- C2 amended: with the sample standard deviation (ddof 1) the Scenario D
values 1, 2, 3 have mean 2 and std exactly 1, are normalized to
-1, 0, 1, and sorted descending to 1, 0, -1. -/
theorem C2_amended_scenario_d :
    salesVals (normalizeStep true 1
        (cleanStep false (toNumericSales (parseCSV "Sales\n1\n2\n3")))) = [-1, 0, 1]
    ∧ salesVals ((processTable ⟨false, true, true⟩ 1 (parseCSV "Sales\n1\n2\n3")).1)
        = [1, 0, -1]
    ∧ listMean (salesVals (cleanStep false (toNumericSales (parseCSV "Sales\n1\n2\n3")))) = 2
    ∧ (1 : ℚ) * 1 = sampleVar (salesVals
        (cleanStep false (toNumericSales (parseCSV "Sales\n1\n2\n3")))) :=
  ⟨by with_unfolding_all rfl, by with_unfolding_all rfl,
   by with_unfolding_all rfl, by with_unfolding_all decide⟩

/-- C8: the statistics the handler returns are those computed on the table
BEFORE the sentinel substitution, the returned rows are the sentinel
serialization of that table, and substituting the sentinel changes
neither the non-missing numeric Sales values nor the summary, so the
sentinel never reaches a statistic (statistic values are rationals
computed from Cell.toNum, which ignores text cells). -/
theorem C8_sentinel_stats_frame (raw : String) (cfg : Config) (σ : ℚ)
    (hraw : raw ≠ "") :
    (handler (some raw) cfg σ).stats = (processTable cfg σ (parseCSV raw)).2
    ∧ (handler (some raw) cfg σ).rows
        = (serializeTable (processTable cfg σ (parseCSV raw)).1).rows
    ∧ summarize (serializeTable (processTable cfg σ (parseCSV raw)).1)
        = summarize (processTable cfg σ (parseCSV raw)).1
    ∧ salesVals (serializeTable (processTable cfg σ (parseCSV raw)).1)
        = salesVals (processTable cfg σ (parseCSV raw)).1 := by
  have h1 : handler (some raw) cfg σ
      = { statusCode := 200, success := true,
          rows := (serializeTable (processTable cfg σ (parseCSV raw)).1).rows,
          stats := (processTable cfg σ (parseCSV raw)).2 } := by
    simp only [handler, Option.getD_some]
    rw [if_neg hraw]
  refine ⟨by rw [h1], by rw [h1], summarize_serialize _, salesVals_serialize _⟩

/-- C8 witness: a concrete run with a missing Sales cell in the input. -/
theorem C8_witness :
    (handler (some "Sales,Tag\n10,a\n,b") ⟨false, false, false⟩ 0).stats
      = (processTable ⟨false, false, false⟩ 0 (parseCSV "Sales,Tag\n10,a\n,b")).2 :=
  (C8_sentinel_stats_frame "Sales,Tag\n10,a\n,b" ⟨false, false, false⟩ 0
    (by decide)).1

/-- C10: when the parsed header has no Sales column, every run succeeds with
status 200 for every flag combination: coercion, normalization, sorting
and summarization are all skipped, the statistics mapping is empty, and
the rows are the input rows subject only to optional cleaning and the
sentinel substitution. -/
theorem C10_no_sales_column (raw : String) (c n s : Bool) (σ : ℚ)
    (hraw : raw ≠ "") (hS : "Sales" ∉ (parseCSV raw).cols) :
    handler (some raw) ⟨c, n, s⟩ σ
      = { statusCode := 200, success := true,
          rows := (serializeTable (cleanStep c (parseCSV raw))).rows,
          stats := [] } := by
  have ht1 : toNumericSales (parseCSV raw) = parseCSV raw := by
    rw [toNumericSales, mapCol, if_neg hS]
  have hS2 : "Sales" ∉ (cleanStep c (parseCSV raw)).cols := by
    rw [cleanStep_cols]
    exact hS
  have ht3 : normalizeStep n σ (cleanStep c (parseCSV raw)) = cleanStep c (parseCSV raw) :=
    normalizeStep_no_col n σ _ hS2
  have ht4 : sortStep s (cleanStep c (parseCSV raw)) = cleanStep c (parseCSV raw) := by
    simp only [sortStep]
    rw [if_neg]
    rintro ⟨_, hmem⟩
    exact hS2 hmem
  have hsum : summarize (cleanStep c (parseCSV raw)) = [] := by
    rw [summarize, if_pos (salesVals_no_col _ hS2)]
  simp only [handler, Option.getD_some]
  rw [if_neg hraw]
  simp only [processTable]
  rw [ht1, ht3, ht4, hsum]

/-- C10 witness: a concrete header without a Sales column, all flags on. -/
theorem C10_witness :
    handler (some "Revenue\n7") ⟨true, true, true⟩ 0
      = { statusCode := 200, success := true,
          rows := (serializeTable (cleanStep true (parseCSV "Revenue\n7"))).rows,
          stats := [] } :=
  C10_no_sales_column "Revenue\n7" true true true 0 (by decide)
    (by with_unfolding_all decide)

end DataVis
